import Mathlib

/-!
Shallow embedding of `src/server/on-demand-entry-handler.js`: the on-demand
entry registry, the compilation-pass hooks (`make` / `done`), `ensurePage`,
the websocket ping handler, and the eviction sweeper
(`disposeInactiveEntries`), together with theorems settling the spec claims.

Pages are `String`s, timestamps are `Nat` milliseconds (`Date.now()`),
callbacks registered on the `doneCallbacks` event emitter are identified by
`Nat` ids.  JavaScript objects keyed by page are modelled as association
lists `List (String × Entry)` (insertion-ordered, as `Object.keys` is);
`undefined` fields are `Option.none`.
-/

namespace OnDemand

/-- The three page states: the symbols `ADDED`, `BUILDING`, `BUILT`. -/
inductive Status where
  | ADDED
  | BUILDING
  | BUILT
deriving DecidableEq, Repr

open Status

/-- Numeric rank of a status along the intended `ADDED → BUILDING → BUILT`
progression, used to state monotonicity. -/
def statusRank : Status → Nat
  | ADDED => 0
  | BUILDING => 1
  | BUILT => 2

/-- One registry entry: `entries[page] = { name, entry, pathname, status }`,
with `lastActiveTime` set on the first transition to `BUILT`
(`undefined` before, hence `Option Nat`). -/
structure Entry where
  name : String
  entry : List String
  pathname : String
  status : Status
  lastActiveTime : Option Nat
deriving DecidableEq, Repr

/-- The mutable state closed over by `onDemandEntryHandler`:
`entries`, `lastAccessPages` (initialised to `['']`), the `doneCallbacks`
emitter's listener list (pairs of page and callback id, in registration
order), and the `touchedAPage` flag. -/
structure SysState where
  entries : List (String × Entry)
  lastAccessPages : List String
  subscribers : List (String × Nat)
  touchedAPage : Bool
deriving DecidableEq, Repr

/-- The initial closure state: `entries = {}`, `lastAccessPages = ['']`,
no listeners, `touchedAPage = false`. -/
def initialState : SysState :=
  { entries := [], lastAccessPages := [""], subscribers := [], touchedAPage := false }

/-- The webpack stats object handed to the `done` hook.  Only the fact of
pass failure is relevant to the claims; the handler body never reads it. -/
structure Stats where
  failed : Bool
deriving DecidableEq, Repr

/-- Invocation of a registered `processCallback`: `doneCallbacks.emit(page)`
calls each listener for `page` with the emitted arguments; `err` is the first
argument (`none` when `emit` passes no arguments, so the callback resolves;
`some e` would make it reject). -/
inductive CbEvent where
  | invoke (id : Nat) (err : Option String)
deriving DecidableEq, Repr

/-- Externally visible side effects of `ensurePage`. -/
inductive Effect where
  | log (page : String)
  | invalidate
deriving DecidableEq, Repr

/-- How the promise returned by `ensurePage` is settled by the executor:
resolved immediately, rejected immediately (resolver failure), or left
pending with callback `cbId` subscribed to the page's completion. -/
inductive EnsureOutcome where
  | resolvedNow
  | rejected (err : String)
  | waiting (cbId : Nat)
deriving DecidableEq, Repr

/-- Outcome of one websocket `message` event. -/
inductive MsgOutcome where
  | exception
  | invalidSent
  | ignored
  | updated
deriving DecidableEq, Repr

/-- `join(a, b)` on paths. -/
def joinPath (a b : String) : String := a ++ "/" ++ b

/-- The characters of the regex literal `/index`. -/
def indexSuffix : List Char := ['/', 'i', 'n', 'd', 'e', 'x']

/-- `normalizePage(page)`: `page.replace(/\/index$/, '/')` — if the page
ends with `/index`, replace that trailing occurrence by `/`. -/
def normalizePage (page : String) : String :=
  if indexSuffix.isSuffixOf page.data then
    String.mk (page.data.take (page.data.length - 6) ++ ['/'])
  else page

/-- `entries[page] = e`: replace the binding in place if the key is present
(preserving `Object.keys` order), otherwise append it. -/
def setEntry (es : List (String × Entry)) (p : String) (e : Entry) :
    List (String × Entry) :=
  if es.any (fun pe => pe.1 == p) then
    es.map (fun pe => if pe.1 == p then (p, e) else pe)
  else es ++ [(p, e)]

/-- The first argument of `join(__dirname, '..', 'client/webpack-hot-middleware-client')`
family of client bundles added to every page entry. -/
def clientBase : String := joinPath "__dirname" ".."

/-- The fresh registry entry built by `ensurePage` from the resolver's
`pathname`: `{ name, entry, pathname, status: ADDED }` (no
`lastActiveTime` yet).  `name = join('bundles', pathname.substring(dir.length))`;
`entry` lists the two client bundles and `` `${pathname}?entry` ``. -/
def freshEntry (dir pathname : String) : Entry :=
  { name := joinPath "bundles" (pathname.drop dir.length)
    entry := [joinPath clientBase "client/webpack-hot-middleware-client"
              , joinPath (joinPath clientBase "client") "on-demand-entries-client"
              , pathname ++ "?entry"]
    pathname := pathname
    status := ADDED
    lastActiveTime := none }

/-- `ensurePage(page)`.  `resolveResult` stands for the external
`await resolvePath(join(dir, 'pages', page))` — `.error` when the resolver
throws (the promise rejects with that error), `.ok pathname` otherwise.
`cbId` identifies the `processCallback` this call would register on
`doneCallbacks`.  Returns how the promise is settled, the state after the
synchronous executor ran, and the emitted effects (`console.log` and
`devMiddleware.invalidate()`). -/
def ensurePage (dir : String) (resolveResult : Except String String)
    (cbId : Nat) (s : SysState) (rawPage : String) :
    EnsureOutcome × SysState × List Effect :=
  let page := normalizePage rawPage
  match resolveResult with
  | .error e => (.rejected e, s, [])
  | .ok pathname =>
    match List.lookup page s.entries with
    | some entryInfo =>
      if entryInfo.status = BUILT then
        (.resolvedNow, s, [])
      else if entryInfo.status = BUILDING then
        (.waiting cbId, { s with subscribers := s.subscribers ++ [(page, cbId)] }, [])
      else
        (.waiting cbId,
         { s with entries := setEntry s.entries page (freshEntry dir pathname)
                  subscribers := s.subscribers ++ [(page, cbId)] },
         [.log page, .invalidate])
    | none =>
      (.waiting cbId,
       { s with entries := setEntry s.entries page (freshEntry dir pathname)
                subscribers := s.subscribers ++ [(page, cbId)] },
       [.log page, .invalidate])

/-- What the `make` handler does to one entry's value:
`entries[page].status = BUILDING`, unconditionally. -/
def makeUpdate (e : Entry) : Entry := { e with status := BUILDING }

/-- The `compiler.plugin('make')` handler: for every key of `entries`
(whatever its status), set `status = BUILDING` and register
`addEntry(compilation, context, name, entry)`.  Returns the new state and
the list of entry names registered with the compilation, in key order. -/
def makeStep (s : SysState) : SysState × List String :=
  ({ s with entries := s.entries.map (fun pe => (pe.1, makeUpdate pe.2)) },
   s.entries.map (fun pe => pe.2.name))

/-- `doneCallbacks.emit(page)`: invoke, in registration order, every
listener registered for `page`, with no arguments (so `err` is `none`). -/
def emitPage (subs : List (String × Nat)) (page : String) : List CbEvent :=
  (subs.filter (fun x => x.1 == page)).map (fun x => .invoke x.2 none)

/-- The pages the `done` handler emits for: the keys whose entry has
`status === BUILDING`, in key order. -/
def donePages (s : SysState) : List String :=
  (s.entries.filter (fun pe => pe.2.status = BUILDING)).map Prod.fst

/-- What the `done` handler does to one entry's value: an entry with
`status === BUILDING` becomes `BUILT` with `lastActiveTime = Date.now()`;
any other entry is left as is (`if (entryInfo.status !== BUILDING) return`). -/
def doneUpdate (now : Nat) (e : Entry) : Entry :=
  if e.status = BUILDING then { e with status := BUILT, lastActiveTime := some now }
  else e

/-- The `compiler.plugin('done')` handler.  For every entry with
`status === BUILDING`: set `status = BUILT`, stamp
`lastActiveTime = Date.now()` (= `now`) and emit the page's callbacks;
other entries are skipped.  The `stats` argument is never read by the
handler body.  A deferred one-time `touch.sync` flips `touchedAPage` when
at least one page transitioned.  Listener registrations survive `emit`
(`EventEmitter.on` never removes them).  Returns the new state and the
callback invocations, in emission order. -/
def doneStep (now : Nat) (_stats : Stats) (s : SysState) : SysState × List CbEvent :=
  ({ s with
      entries := s.entries.map (fun pe => (pe.1, doneUpdate now pe.2))
      touchedAPage := s.touchedAPage || !(donePages s).isEmpty },
   (donePages s).flatMap (emitPage s.subscribers))

/-- The sweep predicate of `disposeInactiveEntries` for one entry: skip
unless `status === BUILT`; skip when `lastAccessPages[0] === page`; dispose
when `Date.now() - lastActiveTime > maxInactiveAge` (an entry with no
`lastActiveTime` compares as `NaN` and is never disposed). -/
def shouldDispose (now maxInactiveAge : Nat) (lastAccessPages : List String)
    (page : String) (e : Entry) : Bool :=
  if e.status ≠ BUILT then false
  else if lastAccessPages.head? = some page then false
  else
    match e.lastActiveTime with
    | some t => decide (now - t > maxInactiveAge)
    | none => false

/-- One run of `disposeInactiveEntries`: collect `disposingPages`, delete
each collected key from `entries`, and invalidate the build system once
iff at least one page was disposed (the returned `Bool`). -/
def disposingPages (now maxInactiveAge : Nat) (s : SysState) : List String :=
  (s.entries.filter (fun pe =>
    shouldDispose now maxInactiveAge s.lastAccessPages pe.1 pe.2)).map Prod.fst

/-- Deletion and single invalidation at the end of `disposeInactiveEntries`. -/
def disposeStep (now maxInactiveAge : Nat) (s : SysState) : SysState × Bool :=
  ({ s with entries :=
      s.entries.filter (fun pe => !((disposingPages now maxInactiveAge s).contains pe.1)) },
   !(disposingPages now maxInactiveAge s).isEmpty)

/-- The websocket `message` handler.  `parseResult` stands for
`JSON.parse(message)` followed by reading `.page`: `none` when the payload
is not well-formed JSON (in which case `JSON.parse` throws and, there being
no try/catch in the handler, the exception escapes it — `MsgOutcome.exception`);
`some rawPage` otherwise.  A ping for an unknown page sends
`{ invalid: true }` and returns; a ping for a non-`BUILT` entry is ignored;
otherwise `lastAccessPages` is popped and the page unshifted, and the
entry's `lastActiveTime` is stamped. -/
def handleMessage (now : Nat) (parseResult : Option String) (s : SysState) :
    MsgOutcome × SysState :=
  match parseResult with
  | none => (.exception, s)
  | some rawPage =>
    let page := normalizePage rawPage
    match List.lookup page s.entries with
    | none => (.invalidSent, s)
    | some entryInfo =>
      if entryInfo.status ≠ BUILT then (.ignored, s)
      else
        (.updated,
         { s with
            lastAccessPages := page :: s.lastAccessPages.dropLast
            entries := setEntry s.entries page
              { entryInfo with lastActiveTime := some now } })

/-! Concrete registry snapshots used to instantiate the theorems. -/

/-- A page that finished building (pinged at `t = 10`). -/
def sampleBuiltEntry : Entry :=
  { name := "nA", entry := [], pathname := "pA", status := BUILT, lastActiveTime := some 10 }

/-- A page currently in a compilation pass. -/
def sampleBuildingEntry : Entry :=
  { name := "nB", entry := [], pathname := "pB", status := BUILDING, lastActiveTime := none }

/-- A page registered but not yet claimed by a pass. -/
def sampleAddedEntry : Entry :=
  { name := "nC", entry := [], pathname := "pC", status := ADDED, lastActiveTime := none }

/-- A registry with one page in each state, two waiters on `/b` and a stale
waiter on a no-longer-tracked page `/x`. -/
def sampleState : SysState :=
  { entries := [("/a", sampleBuiltEntry), ("/b", sampleBuildingEntry), ("/c", sampleAddedEntry)]
    lastAccessPages := ["/a"]
    subscribers := [("/b", 0), ("/b", 1), ("/x", 2)]
    touchedAPage := false }

/-- `sampleState` after one more caller subscribed to `/b`. -/
def sampleStateSub : SysState :=
  { sampleState with subscribers := sampleState.subscribers ++ [("/b", 0)] }

/-- `sampleBuiltEntry` as the `make` hook leaves it. -/
def sampleBuiltAsBuilding : Entry := { sampleBuiltEntry with status := BUILDING }

/-- `sampleBuildingEntry` as the `done` hook leaves it at `now = 100`. -/
def sampleBuildingAsBuilt : Entry :=
  { sampleBuildingEntry with status := BUILT, lastActiveTime := some 100 }

/-- `sampleBuiltEntry` restamped by a ping at `now = 55`. -/
def samplePinged : Entry := { sampleBuiltEntry with lastActiveTime := some 55 }

/-- Built at pass end `t = 0`, never pinged since. -/
def sweepStaleEntry : Entry :=
  { name := "nB", entry := [], pathname := "pB", status := BUILT, lastActiveTime := some 0 }

/-- Built, last pinged at `t = 20000`. -/
def sweepFreshEntry : Entry :=
  { name := "nA", entry := [], pathname := "pA", status := BUILT, lastActiveTime := some 20000 }

/-- Built, stale, but currently the recency-window page. -/
def sweepWindowEntry : Entry :=
  { name := "nZ", entry := [], pathname := "pZ", status := BUILT, lastActiveTime := some 0 }

/-- The spec's sweep scenario: `/a` pinged at 20000, `/b` stale since 0,
`/z` stale but most recently pinged; sweep at `now = 26000` with
`maxInactiveAge = 25000`. -/
def sweepState : SysState :=
  { entries := [("/a", sweepFreshEntry), ("/b", sweepStaleEntry), ("/z", sweepWindowEntry)]
    lastAccessPages := ["/z"]
    subscribers := []
    touchedAPage := true }

/-- `sampleState` with the recency window still at its initial `[""]`. -/
def emptyWindowState : SysState := { sampleState with lastAccessPages := [""] }

/-! ## Theorems -/

/-- A list ending in `'/'` never has `/index` as a suffix (the final
characters differ). -/
lemma indexSuffix_not_suffix (xs : List Char) : ¬ indexSuffix <:+ xs ++ ['/'] := by
  rintro ⟨t, ht⟩
  have h1 : (t ++ indexSuffix).getLast? = some 'x' := by
    rw [List.getLast?_append]; rfl
  rw [ht, List.getLast?_append] at h1
  simp at h1

/-- Unfolding of `normalizePage` when the page ends with `/index`. -/
lemma normalizePage_of_suffix (s : String)
    (h : indexSuffix.isSuffixOf s.data = true) :
    normalizePage s = String.mk (s.data.take (s.data.length - 6) ++ ['/']) := by
  rw [normalizePage, if_pos h]

/-- Unfolding of `normalizePage` when the page does not end with `/index`. -/
lemma normalizePage_of_not_suffix (s : String)
    (h : indexSuffix.isSuffixOf s.data = false) :
    normalizePage s = s := by
  rw [normalizePage, if_neg (by simp [h])]

/-- Looking a key up after mapping a function over the values. -/
lemma lookup_map_val (f : Entry → Entry) (l : List (String × Entry)) (p : String) :
    List.lookup p (l.map (fun pe => (pe.1, f pe.2))) = (List.lookup p l).map f := by
  induction l with
  | nil => rfl
  | cons hd tl ih =>
    obtain ⟨k, v⟩ := hd
    cases h : p == k <;> simp only [List.map_cons, List.lookup, h] <;> simp [ih]

/-- A successful lookup produces a pair of the list. -/
lemma mem_of_lookup_eq_some {l : List (String × Entry)} {p : String} {e : Entry}
    (h : List.lookup p l = some e) : (p, e) ∈ l := by
  induction l with
  | nil => simp [List.lookup] at h
  | cons hd tl ih =>
    obtain ⟨k, v⟩ := hd
    cases hpk : p == k <;> simp only [List.lookup, hpk] at h
    · exact List.mem_cons_of_mem _ (ih h)
    · obtain rfl : p = k := by simpa using hpk
      obtain rfl : v = e := by simpa using h
      exact List.mem_cons_self _ _

/-- With duplicate-free keys, membership determines the lookup result. -/
lemma lookup_eq_some_of_mem {l : List (String × Entry)} {p : String} {e : Entry}
    (hnd : (l.map Prod.fst).Nodup) (h : (p, e) ∈ l) :
    List.lookup p l = some e := by
  induction l with
  | nil => simp at h
  | cons hd tl ih =>
    obtain ⟨k, v⟩ := hd
    simp only [List.map_cons, List.nodup_cons] at hnd
    rcases List.mem_cons.mp h with heq | hmem
    · obtain ⟨rfl, rfl⟩ := Prod.mk.injEq .. ▸ heq
      simp [List.lookup]
    · cases hpk : p == k
      · simpa only [List.lookup, hpk] using ih hnd.2 hmem
      · obtain rfl : p = k := by simpa using hpk
        exact absurd (List.mem_map.mpr ⟨(p, e), hmem, rfl⟩) hnd.1

/-- Skipping a cons cell whose key differs. -/
lemma lookup_cons_ne {k p : String} {v : Entry} {tl : List (String × Entry)}
    (h : p ≠ k) : List.lookup p ((k, v) :: tl) = List.lookup p tl := by
  have hb : (p == k) = false := by simpa using h
  simp [List.lookup_cons, hb]

/-- Looking up after deleting the keys in `dl`. -/
lemma lookup_filter_keys (dl : List String) (l : List (String × Entry)) (p : String) :
    List.lookup p (l.filter (fun pe => !(dl.contains pe.1))) =
      if p ∈ dl then none else List.lookup p l := by
  induction l with
  | nil => simp
  | cons hd tl ih =>
    obtain ⟨k, w⟩ := hd
    rw [List.filter_cons]
    by_cases hc : k ∈ dl
    · rw [show (!dl.contains k) = false by simpa using hc, if_neg (by simp), ih]
      by_cases hpk : p = k
      · subst hpk
        simp [hc]
      · rw [lookup_cons_ne hpk]
    · rw [show (!dl.contains k) = true by simpa using hc, if_pos rfl]
      by_cases hpk : p = k
      · subst hpk
        simp [hc]
      · rw [lookup_cons_ne hpk, lookup_cons_ne hpk, ih]

/-- Looking up after the in-place map-replacement of key `q`. -/
lemma lookup_map_replace (l : List (String × Entry)) (q : String) (v : Entry)
    (p : String) :
    List.lookup p (l.map (fun pe => if pe.1 == q then (q, v) else pe)) =
      if p = q then (List.lookup q l).map (fun _ => v) else List.lookup p l := by
  induction l with
  | nil => by_cases hpq : p = q <;> simp [hpq]
  | cons hd tl ih =>
    obtain ⟨k, w⟩ := hd
    simp only [List.map_cons]
    by_cases hkq : k = q
    · rcases hkq with rfl
      rw [show ((k : String) == k) = true from by simp, if_pos rfl]
      by_cases hpk : p = k
      · subst hpk
        simp
      · rw [lookup_cons_ne hpk, lookup_cons_ne hpk, ih, if_neg hpk, if_neg hpk]
    · have hkq' : (k == q) = false := by simpa using hkq
      rw [show (if (k == q) = true then (q, v) else (k, w)) = (k, w) from by
        rw [hkq']; simp]
      by_cases hpk : p = k
      · subst hpk
        have hpq : p ≠ q := hkq
        simp [hpq]
      · rw [lookup_cons_ne hpk, lookup_cons_ne hpk,
          lookup_cons_ne (fun h => hkq h.symm), ih]

/-- When no key of `l` equals `q`, looking up `q` fails. -/
lemma lookup_eq_none_of_any_false {l : List (String × Entry)} {q : String}
    (h : l.any (fun pe => pe.1 == q) = false) : List.lookup q l = none := by
  rw [List.lookup_eq_none_iff]
  intro pe hpe
  have h2 := (List.any_eq_false.mp h) pe hpe
  simp only [bne_iff_ne]
  intro hq
  exact h2 (by simp [hq])

/-- Looking up the key written by `setEntry`, and any other key. -/
lemma lookup_setEntry (l : List (String × Entry)) (q : String) (v : Entry) (p : String) :
    List.lookup p (setEntry l q v) = if p = q then some v else List.lookup p l := by
  rw [setEntry]
  cases hany : l.any (fun pe => pe.1 == q)
  · rw [if_neg (by simp [hany])]
    rw [List.lookup_append]
    by_cases hpq : p = q
    · subst hpq
      rw [lookup_eq_none_of_any_false hany]
      simp
    · have hpq' : (p == q) = false := by simpa using hpq
      simp [List.lookup_cons, hpq', hpq]
  · rw [if_pos (by simp [hany]), lookup_map_replace]
    by_cases hpq : p = q
    · subst hpq
      obtain ⟨⟨k, w⟩, hmem, hk⟩ := List.any_eq_true.mp hany
      have hk2 : k = p := by simpa using hk
      rw [hk2] at hmem
      have hsome : (List.lookup p l).isSome := by
        rw [List.lookup_isSome_iff]
        exact ⟨(p, w), hmem, by simp⟩
      obtain ⟨u, hu⟩ := Option.isSome_iff_exists.mp hsome
      simp [hu]
    · simp [hpq]

/-- Registry lookup after the `make` hook ran. -/
lemma lookup_makeStep (s : SysState) (p : String) :
    List.lookup p (makeStep s).1.entries =
      (List.lookup p s.entries).map makeUpdate :=
  lookup_map_val makeUpdate s.entries p

/-- Registry lookup after the `done` hook ran. -/
lemma lookup_doneStep (now : Nat) (stats : Stats) (s : SysState) (p : String) :
    List.lookup p (doneStep now stats s).1.entries =
      (List.lookup p s.entries).map (doneUpdate now) :=
  lookup_map_val _ _ _

/-- Registry lookup after one sweep ran. -/
lemma lookup_disposeStep (now maxAge : Nat) (s : SysState) (p : String) :
    List.lookup p (disposeStep now maxAge s).1.entries =
      if p ∈ disposingPages now maxAge s then none
      else List.lookup p s.entries :=
  lookup_filter_keys _ _ _

/-- C7: page-identifier normalization is idempotent on every input string,
and `"/foo/index"` and `"/foo/"` normalize to the same key, so `ensurePage`
on either references the same registry entry. -/
theorem normalizePage_idempotent_conflating :
    (∀ s : String, normalizePage (normalizePage s) = normalizePage s) ∧
    normalizePage "/foo/index" = normalizePage "/foo/" := by
  constructor
  · intro s
    cases hb : indexSuffix.isSuffixOf s.data with
    | false =>
      rw [normalizePage_of_not_suffix s hb]
      exact normalizePage_of_not_suffix s hb
    | true =>
      rw [normalizePage_of_suffix s hb]
      have h2 : indexSuffix.isSuffixOf
          (s.data.take (s.data.length - 6) ++ ['/']) = false :=
        Bool.eq_false_iff.mpr (fun hc =>
          indexSuffix_not_suffix _ (List.isSuffixOf_iff_suffix.mp hc))
      exact normalizePage_of_not_suffix _ h2
  · decide

/-- C5: when the entry for the normalized page exists with status `BUILT`
and the resolver succeeds, `ensurePage` resolves immediately, leaves the
whole state unchanged (so it registers no completion subscription and does
not wait for any pass), and emits no effect (in particular no build-system
invalidation); and a rejection of `ensurePage` can only carry a resolver
error. -/
theorem ensurePage_built_resolves_immediately :
    (∀ dir pathname cbId s rawPage e,
        List.lookup (normalizePage rawPage) s.entries = some e → e.status = BUILT →
        ensurePage dir (.ok pathname) cbId s rawPage = (.resolvedNow, s, [])) ∧
    (∀ dir res cbId s rawPage err s2 effs,
        ensurePage dir res cbId s rawPage = (.rejected err, s2, effs) →
        res = .error err) := by
  constructor
  · intro dir pathname cbId s rawPage e h hb
    simp [ensurePage, h, hb]
  · intro dir res cbId s rawPage err s2 effs h
    cases res with
    | error e =>
      simp only [ensurePage] at h
      obtain ⟨h1, -⟩ := Prod.mk.injEq .. ▸ h
      cases h1
      rfl
    | ok pathname =>
      exfalso
      rcases hl : List.lookup (normalizePage rawPage) s.entries with - | e
      · simp [ensurePage, hl] at h
      · by_cases hb : e.status = BUILT
        · simp [ensurePage, hl, hb] at h
        · by_cases hbd : e.status = BUILDING
          · simp [ensurePage, hl, hb, hbd] at h
          · simp [ensurePage, hl, hb, hbd] at h

/-- Witness for C5 at `sampleState` and page `/a` (built). -/
theorem ensurePage_built_resolves_immediately_witness :
    List.lookup (normalizePage "/a") sampleState.entries = some sampleBuiltEntry ∧
    sampleBuiltEntry.status = BUILT ∧
    ensurePage "" (.ok "pA") 9 sampleState "/a" = (.resolvedNow, sampleState, []) ∧
    (Except.error "eBoom" : Except String String) = Except.error "eBoom" :=
  ⟨by decide, by decide,
   ensurePage_built_resolves_immediately.1 "" "pA" 9 sampleState "/a" sampleBuiltEntry
     (by decide) (by decide),
   ensurePage_built_resolves_immediately.2 "" (.error "eBoom") 9 sampleState "/a"
     "eBoom" sampleState [] (by decide)⟩

/-- C6 counterexample: at `sampleState`, page `/c` has an entry in `ADDED`,
yet `ensurePage` issues a build-system invalidation (and replaces the
entry), contradicting the claim that the `ADDED` case only subscribes,
leaves the entry unchanged and issues no invalidation. -/
theorem ensurePage_added_counterexample :
    List.lookup "/c" sampleState.entries = some sampleAddedEntry ∧
    sampleAddedEntry.status = ADDED ∧
    Effect.invalidate ∈ (ensurePage "" (.ok "pC2") 7 sampleState "/c").2.2 ∧
    List.lookup "/c" (ensurePage "" (.ok "pC2") 7 sampleState "/c").2.1.entries ≠
      some sampleAddedEntry := by
  refine ⟨by decide, by decide, by decide, by decide⟩

/-- C6 amended: `ensurePage` on a page whose entry is in `ADDED` falls
through to the same path as a page with no entry at all: it replaces the
entry with a freshly constructed `ADDED` entry, appends the caller to the
page's completion subscribers, logs, and invalidates the build system. -/
theorem ensurePage_added_readds :
    ∀ dir pathname cbId s rawPage e,
      List.lookup (normalizePage rawPage) s.entries = some e → e.status = ADDED →
      ensurePage dir (.ok pathname) cbId s rawPage =
        (.waiting cbId,
         { s with
            entries := setEntry s.entries (normalizePage rawPage) (freshEntry dir pathname)
            subscribers := s.subscribers ++ [(normalizePage rawPage, cbId)] },
         [.log (normalizePage rawPage), .invalidate]) := by
  intro dir pathname cbId s rawPage e h ha
  have hb : ¬ e.status = BUILT := by rw [ha]; intro hc; cases hc
  have hbd : ¬ e.status = BUILDING := by rw [ha]; intro hc; cases hc
  simp [ensurePage, h, hb, hbd]

/-- Witness for the amended C6 at `sampleState` and page `/c` (added). -/
theorem ensurePage_added_readds_witness :
    List.lookup (normalizePage "/c") sampleState.entries = some sampleAddedEntry ∧
    sampleAddedEntry.status = ADDED ∧
    (ensurePage "" (.ok "pC2") 7 sampleState "/c").2.2 =
      [Effect.log (normalizePage "/c"), Effect.invalidate] :=
  ⟨by decide, by decide,
   by rw [ensurePage_added_readds "" "pC2" 7 sampleState "/c" sampleAddedEntry
        (by decide) (by decide)]⟩

/-- C2: if `ensurePage` resolves immediately, the entry for the normalized
page exists with status `BUILT` in the (unchanged) state; and a caller
subscribed to a page that a completing pass transitions out of `BUILDING`
is released by an errorless callback invocation at a moment when that
page's entry has status `BUILT`. -/
theorem ensurePage_resolves_only_built :
    (∀ dir res cbId s rawPage s2 effs,
        ensurePage dir res cbId s rawPage = (.resolvedNow, s2, effs) →
        ∃ e, List.lookup (normalizePage rawPage) s2.entries = some e ∧
          e.status = BUILT) ∧
    (∀ now stats s p cbId e,
        (p, cbId) ∈ s.subscribers →
        List.lookup p s.entries = some e → e.status = BUILDING →
        CbEvent.invoke cbId none ∈ (doneStep now stats s).2 ∧
        ∃ e2, List.lookup p (doneStep now stats s).1.entries = some e2 ∧
          e2.status = BUILT) := by
  constructor
  · intro dir res cbId s rawPage s2 effs h
    cases res with
    | error e => simp [ensurePage] at h
    | ok pathname =>
      rcases hl : List.lookup (normalizePage rawPage) s.entries with - | e
      · simp [ensurePage, hl] at h
      · by_cases hb : e.status = BUILT
        · simp only [ensurePage, hl, hb, if_pos, Prod.mk.injEq] at h
          obtain ⟨-, h2, -⟩ := h
          subst h2
          exact ⟨e, hl, hb⟩
        · by_cases hbd : e.status = BUILDING
          · simp [ensurePage, hl, hb, hbd] at h
          · simp [ensurePage, hl, hb, hbd] at h
  · intro now stats s p cbId e hsub hl hbd
    constructor
    · have hp : p ∈ donePages s := by
        simp only [donePages, List.mem_map, List.mem_filter]
        exact ⟨(p, e), ⟨mem_of_lookup_eq_some hl, by simp [hbd]⟩, rfl⟩
      simp only [doneStep, List.mem_flatMap]
      refine ⟨p, hp, ?_⟩
      simp only [emitPage, List.mem_map, List.mem_filter]
      exact ⟨(p, cbId), ⟨hsub, by simp⟩, rfl⟩
    · refine ⟨{ e with status := BUILT, lastActiveTime := some now }, ?_, rfl⟩
      rw [lookup_doneStep, hl]
      simp [doneUpdate, hbd]

/-- Witness for C2: the immediate path at `/a` and the pass-completion
path at `/b` of `sampleState`. -/
theorem ensurePage_resolves_only_built_witness :
    (∃ e, List.lookup (normalizePage "/a") sampleState.entries = some e ∧
      e.status = BUILT) ∧
    (CbEvent.invoke 0 none ∈ (doneStep 100 ⟨false⟩ sampleState).2 ∧
     ∃ e2, List.lookup "/b" (doneStep 100 ⟨false⟩ sampleState).1.entries = some e2 ∧
       e2.status = BUILT) :=
  ⟨ensurePage_resolves_only_built.1 "" (.ok "pA") 9 sampleState "/a" sampleState []
     (by decide),
   ensurePage_resolves_only_built.2 100 ⟨false⟩ sampleState "/b" 0 sampleBuildingEntry
     (by decide) (by decide) (by decide)⟩

/-- C1 counterexample: the `make` hook demotes a `BUILT` entry back to
`BUILDING`: at `sampleState`, `/a` is `BUILT` before the pass starts and
`BUILDING` after, without having been deleted. -/
theorem make_demotes_built_counterexample :
    List.lookup "/a" sampleState.entries = some sampleBuiltEntry ∧
    sampleBuiltEntry.status = BUILT ∧
    List.lookup "/a" (makeStep sampleState).1.entries = some sampleBuiltAsBuilding ∧
    sampleBuiltAsBuilding.status = BUILDING := by
  refine ⟨by decide, by decide, by decide, by decide⟩

/-- C1 amended: no operation other than a compilation-pass start ever
demotes an entry's status — pass completion and `ensurePage` only keep or
advance the rank `ADDED → BUILDING → BUILT` of a surviving entry, a ping
never changes status, and the sweeper only deletes entries (survivors are
untouched); but a compilation-pass start sets the status of every entry,
including `BUILT` ones, to `BUILDING` (they are re-advanced to `BUILT`
when the pass completes). -/
theorem status_demoted_only_by_make :
    (∀ s p e2, List.lookup p (makeStep s).1.entries = some e2 →
        e2.status = BUILDING) ∧
    (∀ now stats s p e e2, List.lookup p s.entries = some e →
        List.lookup p (doneStep now stats s).1.entries = some e2 →
        statusRank e.status ≤ statusRank e2.status) ∧
    (∀ now parsed s p e e2, List.lookup p s.entries = some e →
        List.lookup p (handleMessage now parsed s).2.entries = some e2 →
        e2.status = e.status) ∧
    (∀ dir res cbId s rawPage out s2 effs p e e2,
        ensurePage dir res cbId s rawPage = (out, s2, effs) →
        List.lookup p s.entries = some e → List.lookup p s2.entries = some e2 →
        statusRank e.status ≤ statusRank e2.status) ∧
    (∀ now maxAge s p e2,
        List.lookup p (disposeStep now maxAge s).1.entries = some e2 →
        List.lookup p s.entries = some e2) := by
  refine ⟨?_, ?_, ?_, ?_, ?_⟩
  · intro s p e2 h
    rw [lookup_makeStep] at h
    rcases hl : List.lookup p s.entries with _ | e
    · rw [hl] at h
      simp at h
    · rw [hl] at h
      obtain rfl : makeUpdate e = e2 := by simpa using h
      rfl
  · intro now stats s p e e2 h h2
    rw [lookup_doneStep, h] at h2
    obtain rfl : doneUpdate now e = e2 := by simpa using h2
    by_cases hbd : e.status = BUILDING
    · simp [doneUpdate, hbd, statusRank]
    · simp only [doneUpdate, hbd, if_neg]
      exact le_refl _
  · intro now parsed s p e e2 h h2
    cases parsed with
    | none =>
      obtain rfl : e = e2 := by
        simp only [handleMessage] at h2
        rw [h] at h2
        exact Option.some.inj h2
      rfl
    | some rawPage =>
      rcases hl : List.lookup (normalizePage rawPage) s.entries with - | entryInfo <;>
        simp only [handleMessage, hl] at h2
      · rw [h] at h2
        exact (Option.some.inj h2).symm ▸ rfl
      · by_cases hb : entryInfo.status ≠ BUILT
        · rw [if_pos hb] at h2
          rw [h] at h2
          exact (Option.some.inj h2).symm ▸ rfl
        · rw [if_neg hb] at h2
          simp only at h2
          rw [lookup_setEntry] at h2
          by_cases hpq : p = normalizePage rawPage
          · rw [if_pos hpq] at h2
            subst hpq
            rw [hl] at h
            have he : entryInfo = e := Option.some.inj h
            obtain rfl : { entryInfo with lastActiveTime := some now } = e2 :=
              Option.some.inj h2
            rw [← he]
          · rw [if_neg hpq, h] at h2
            exact (Option.some.inj h2).symm ▸ rfl
  · intro dir res cbId s rawPage out s2 effs p e e2 heq h h2
    cases res with
    | error err =>
      simp only [ensurePage, Prod.mk.injEq] at heq
      obtain ⟨-, rfl, -⟩ := heq
      rw [h] at h2
      obtain rfl : e = e2 := Option.some.inj h2
      exact le_refl _
    | ok pathname =>
      rcases hl : List.lookup (normalizePage rawPage) s.entries with - | entryInfo
      · simp only [ensurePage, hl, Prod.mk.injEq] at heq
        obtain ⟨-, rfl, -⟩ := heq
        simp only [lookup_setEntry] at h2
        by_cases hpq : p = normalizePage rawPage
        · rw [hpq, hl] at h
          cases h
        · rw [if_neg hpq, h] at h2
          obtain rfl : e = e2 := Option.some.inj h2
          exact le_refl _
      · by_cases hb : entryInfo.status = BUILT
        · simp only [ensurePage, hl, hb, if_pos, Prod.mk.injEq] at heq
          obtain ⟨-, rfl, -⟩ := heq
          rw [h] at h2
          obtain rfl : e = e2 := Option.some.inj h2
          exact le_refl _
        · by_cases hbd : entryInfo.status = BUILDING
          · simp only [ensurePage, hl, hb, hbd, if_neg, if_pos,
              Prod.mk.injEq] at heq
            obtain ⟨-, rfl, -⟩ := heq
            rw [h] at h2
            obtain rfl : e = e2 := Option.some.inj h2
            exact le_refl _
          · simp only [ensurePage, hl, hb, hbd, if_neg, Prod.mk.injEq] at heq
            obtain ⟨-, rfl, -⟩ := heq
            simp only [lookup_setEntry] at h2
            by_cases hpq : p = normalizePage rawPage
            · rw [if_pos hpq] at h2
              obtain rfl : freshEntry dir pathname = e2 := Option.some.inj h2
              rw [hpq, hl] at h
              have he : entryInfo = e := Option.some.inj h
              have hsa : e.status = ADDED := by
                rw [← he]
                cases hs : entryInfo.status
                · rfl
                · exact absurd hs hbd
                · exact absurd hs hb
              rw [hsa]
              exact Nat.zero_le _
            · rw [if_neg hpq, h] at h2
              obtain rfl : e = e2 := Option.some.inj h2
              exact le_refl _
  · intro now maxAge s p e2 h
    rw [lookup_disposeStep] at h
    by_cases hc : p ∈ disposingPages now maxAge s
    · rw [if_pos hc] at h
      cases h
    · rwa [if_neg hc] at h

/-- Witness for the amended C1, instantiating each conjunct at
`sampleState`. -/
theorem status_demoted_only_by_make_witness :
    sampleBuiltAsBuilding.status = BUILDING ∧
    statusRank sampleBuildingEntry.status ≤ statusRank sampleBuildingAsBuilt.status ∧
    samplePinged.status = sampleBuiltEntry.status ∧
    statusRank sampleBuildingEntry.status ≤ statusRank sampleBuildingEntry.status ∧
    List.lookup "/a" sampleState.entries = some sampleBuiltEntry :=
  ⟨status_demoted_only_by_make.1 sampleState "/a" sampleBuiltAsBuilding (by decide),
   status_demoted_only_by_make.2.1 100 ⟨false⟩ sampleState "/b" sampleBuildingEntry
     sampleBuildingAsBuilt (by decide) (by decide),
   status_demoted_only_by_make.2.2.1 55 (some "/a") sampleState "/a" sampleBuiltEntry
     samplePinged (by decide) (by decide),
   status_demoted_only_by_make.2.2.2.1 "" (.ok "pB") 0 sampleState "/b" (.waiting 0)
     sampleStateSub [] "/b" sampleBuildingEntry sampleBuildingEntry (by decide)
     (by decide) (by decide),
   status_demoted_only_by_make.2.2.2.2 1000 25 sampleState "/a" sampleBuiltEntry
     (by decide)⟩

/-- C3 counterexample: a pass that failed (`stats.failed = true`) still
releases the subscribers of every page it transitions to `BUILT` by
invoking their callbacks with no error — at `sampleState` both waiters on
`/b` are invoked with `err = none` (which resolves their promises), not
rejected with the pass's failure. -/
theorem failed_pass_still_resolves_counterexample :
    Stats.failed ⟨true⟩ = true ∧
    ("/b", 0) ∈ sampleState.subscribers ∧
    List.lookup "/b" sampleState.entries = some sampleBuildingEntry ∧
    sampleBuildingEntry.status = BUILDING ∧
    (doneStep 100 ⟨true⟩ sampleState).2 =
      [CbEvent.invoke 0 none, CbEvent.invoke 1 none] := by
  refine ⟨by decide, by decide, by decide, by decide, by decide⟩

/-- C3 amended: the `done` hook never passes the pass's failure to
subscribers — every callback invocation it performs carries `err = none`
(so every released subscriber is released with success), whatever the
pass's stats say; the rejection branch of `processCallback` is unreachable
from pass completion. -/
theorem done_releases_only_success :
    ∀ now stats s ev, ev ∈ (doneStep now stats s).2 →
      ∃ cbId, ev = CbEvent.invoke cbId none := by
  intro now stats s ev hev
  simp only [doneStep, List.mem_flatMap, emitPage, List.mem_map,
    List.mem_filter] at hev
  obtain ⟨-, -, ⟨x, -, rfl⟩⟩ := hev
  exact ⟨x.2, rfl⟩

/-- Witness for the amended C3 at `sampleState` with a failed pass. -/
theorem done_releases_only_success_witness :
    CbEvent.invoke 0 none ∈ (doneStep 100 ⟨true⟩ sampleState).2 ∧
    ∃ cbId, CbEvent.invoke 0 none = CbEvent.invoke cbId none :=
  ⟨by decide,
   done_releases_only_success 100 ⟨true⟩ sampleState (CbEvent.invoke 0 none)
     (by decide)⟩

/-- C10: completion subscribers are never removed: pass completion leaves
the listener list untouched (as do pass start, the sweeper and the ping
handler; `ensurePage` only appends), and a registered callback of a page
is invoked at every pass completion in which that page transitions out of
`BUILDING` to `BUILT` — including passes after the one that first resolved
its promise. -/
theorem subscribers_never_removed :
    (∀ now stats s, (doneStep now stats s).1.subscribers = s.subscribers) ∧
    (∀ s, (makeStep s).1.subscribers = s.subscribers) ∧
    (∀ now maxAge s, (disposeStep now maxAge s).1.subscribers = s.subscribers) ∧
    (∀ now parsed s, (handleMessage now parsed s).2.subscribers = s.subscribers) ∧
    (∀ dir res cbId s rawPage,
        (ensurePage dir res cbId s rawPage).2.1.subscribers = s.subscribers ∨
        (ensurePage dir res cbId s rawPage).2.1.subscribers =
          s.subscribers ++ [(normalizePage rawPage, cbId)]) ∧
    (∀ now stats s p cbId e, (p, cbId) ∈ s.subscribers →
        List.lookup p s.entries = some e → e.status = BUILDING →
        CbEvent.invoke cbId none ∈ (doneStep now stats s).2) := by
  refine ⟨fun now stats s => rfl, fun s => rfl, fun now maxAge s => rfl, ?_, ?_, ?_⟩
  · intro now parsed s
    cases parsed with
    | none => rfl
    | some rawPage =>
      rcases hl : List.lookup (normalizePage rawPage) s.entries with - | entryInfo <;>
        simp only [handleMessage, hl]
      by_cases hb : entryInfo.status ≠ BUILT
      · rw [if_pos hb]
      · rw [if_neg hb]
  · intro dir res cbId s rawPage
    cases res with
    | error err => exact Or.inl rfl
    | ok pathname =>
      rcases hl : List.lookup (normalizePage rawPage) s.entries with - | entryInfo
      · exact Or.inr (by simp [ensurePage, hl])
      · by_cases hb : entryInfo.status = BUILT
        · exact Or.inl (by simp [ensurePage, hl, hb])
        · by_cases hbd : entryInfo.status = BUILDING
          · exact Or.inr (by simp [ensurePage, hl, hb, hbd])
          · exact Or.inr (by simp [ensurePage, hl, hb, hbd])
  · intro now stats s p cbId e hsub hl hbd
    have hp : p ∈ donePages s := by
      simp only [donePages, List.mem_map, List.mem_filter]
      exact ⟨(p, e), ⟨mem_of_lookup_eq_some hl, by simp [hbd]⟩, rfl⟩
    simp only [doneStep, List.mem_flatMap]
    refine ⟨p, hp, ?_⟩
    simp only [emitPage, List.mem_map, List.mem_filter]
    exact ⟨(p, cbId), ⟨hsub, by simp⟩, rfl⟩

/-- Witness for C10: the waiter `("/b", 0)` of `sampleState` persists
through a completed pass and is invoked by it. -/
theorem subscribers_never_removed_witness :
    (doneStep 100 ⟨false⟩ sampleState).1.subscribers = sampleState.subscribers ∧
    ("/b", 0) ∈ (doneStep 100 ⟨false⟩ sampleState).1.subscribers ∧
    CbEvent.invoke 0 none ∈ (doneStep 100 ⟨false⟩ sampleState).2 :=
  ⟨subscribers_never_removed.1 100 ⟨false⟩ sampleState,
   by decide,
   subscribers_never_removed.2.2.2.2.2 100 ⟨false⟩ sampleState "/b" 0
     sampleBuildingEntry (by decide) (by decide) (by decide)⟩

/-- The sweep predicate, spelled out: an entry is marked exactly when it is
`BUILT`, is not the recency-window page, and its last activity is strictly
older than `maxInactiveAge`. -/
lemma shouldDispose_iff (now maxAge : Nat) (lap : List String) (p : String)
    (e : Entry) :
    shouldDispose now maxAge lap p e = true ↔
      (e.status = BUILT ∧ lap.head? ≠ some p ∧
       ∃ t, e.lastActiveTime = some t ∧ now - t > maxAge) := by
  unfold shouldDispose
  by_cases h1 : e.status = BUILT
  · rw [if_neg (by simp [h1])]
    by_cases h2 : lap.head? = some p
    · rw [if_pos h2]
      simp [h2]
    · rw [if_neg h2]
      cases hl : e.lastActiveTime with
      | none => simp [h1, h2, hl]
      | some t => simp [h1, h2, hl]
  · rw [if_pos h1]
    simp [h1]

/-- With duplicate-free keys, a page with entry `e` is collected by the
sweep iff the sweep predicate holds of `e`. -/
lemma mem_disposingPages_iff (now maxAge : Nat) (s : SysState) (p : String)
    (e : Entry) (hnd : (s.entries.map Prod.fst).Nodup)
    (h : List.lookup p s.entries = some e) :
    p ∈ disposingPages now maxAge s ↔
      shouldDispose now maxAge s.lastAccessPages p e = true := by
  unfold disposingPages
  simp only [List.mem_map, List.mem_filter]
  constructor
  · rintro ⟨⟨q, e2⟩, ⟨hmem, hsd⟩, heq⟩
    have hq : q = p := heq
    subst hq
    have h2 := lookup_eq_some_of_mem hnd hmem
    rw [h] at h2
    obtain rfl : e = e2 := Option.some.inj h2
    exact hsd
  · intro hsd
    exact ⟨(p, e), ⟨mem_of_lookup_eq_some h, hsd⟩, rfl⟩

/-- C4: a sweep at time `now` deletes a page it tracks exactly when its
entry is `BUILT`, it is not the current recency-window page
(`lastAccessPages[0]`), and `now - lastActiveTime > maxInactiveAge`; a page
that is not deleted survives with its entry untouched.  In particular a
built page pinged within `maxInactiveAge` survives, the recency-window page
survives regardless of its own `lastActiveTime`, and `ADDED`/`BUILDING`
entries are never evicted. -/
theorem dispose_deletes_exactly (now maxAge : Nat) (s : SysState)
    (hnd : (s.entries.map Prod.fst).Nodup) (p : String) (e : Entry)
    (h : List.lookup p s.entries = some e) :
    (List.lookup p (disposeStep now maxAge s).1.entries = none ↔
      (e.status = BUILT ∧ s.lastAccessPages.head? ≠ some p ∧
       ∃ t, e.lastActiveTime = some t ∧ now - t > maxAge)) ∧
    (List.lookup p (disposeStep now maxAge s).1.entries = none ∨
     List.lookup p (disposeStep now maxAge s).1.entries = some e) := by
  rw [lookup_disposeStep]
  by_cases hc : p ∈ disposingPages now maxAge s
  · rw [if_pos hc]
    refine ⟨⟨fun _ => ?_, fun _ => rfl⟩, Or.inl rfl⟩
    exact (shouldDispose_iff now maxAge s.lastAccessPages p e).mp
      ((mem_disposingPages_iff now maxAge s p e hnd h).mp hc)
  · rw [if_neg hc, h]
    refine ⟨⟨fun hn => absurd hn (by simp), fun hcond => ?_⟩, Or.inr rfl⟩
    exact absurd ((mem_disposingPages_iff now maxAge s p e hnd h).mpr
      ((shouldDispose_iff now maxAge s.lastAccessPages p e).mpr hcond)) hc

/-- Witness for C4, the spec's sweep scenario on `sweepState` at
`now = 26000` with threshold `25000`: `/b` (stale) is evicted, `/a` (pinged
at 20000) survives, `/z` (stale but the recency page) survives. -/
theorem dispose_deletes_exactly_witness :
    (sweepState.entries.map Prod.fst).Nodup ∧
    List.lookup "/b" (disposeStep 26000 25000 sweepState).1.entries = none ∧
    List.lookup "/a" (disposeStep 26000 25000 sweepState).1.entries =
      some sweepFreshEntry ∧
    List.lookup "/z" (disposeStep 26000 25000 sweepState).1.entries =
      some sweepWindowEntry :=
  ⟨by decide,
   (dispose_deletes_exactly 26000 25000 sweepState (by decide) "/b" sweepStaleEntry
      (by decide)).1.mpr ⟨rfl, by decide, ⟨0, rfl, by decide⟩⟩,
   (dispose_deletes_exactly 26000 25000 sweepState (by decide) "/a" sweepFreshEntry
      (by decide)).2.resolve_left (by decide),
   (dispose_deletes_exactly 26000 25000 sweepState (by decide) "/z" sweepWindowEntry
      (by decide)).2.resolve_left (by decide)⟩

/-- C8: `JSON.parse` throwing on a malformed payload escapes the `message`
handler (there is no try/catch), instead of failing just that message: the
handler run ends in the `exception` outcome.  No registry or recency state
is mutated by such a run; but the claim that no unhandled exception is
raised fails — the exception propagates out of the handler. -/
theorem malformed_message_escapes_handler :
    ∀ now s, handleMessage now none s = (MsgOutcome.exception, s) :=
  fun _ _ => rfl

/-- C9: the recency window starts as `[""]` over an empty registry, stays a
one-element list under every operation (only an accepted ping rewrites it,
popping and unshifting), and while it still holds `""` it protects no
tracked page (whose identifiers are nonempty) from eviction. -/
theorem recency_window_single_slot :
    initialState.lastAccessPages = [""] ∧
    initialState.entries = [] ∧
    (∀ now parsed s, s.lastAccessPages.length = 1 →
        (handleMessage now parsed s).2.lastAccessPages.length = 1) ∧
    (∀ s, (makeStep s).1.lastAccessPages = s.lastAccessPages) ∧
    (∀ now stats s, (doneStep now stats s).1.lastAccessPages = s.lastAccessPages) ∧
    (∀ dir res cbId s rawPage,
        (ensurePage dir res cbId s rawPage).2.1.lastAccessPages =
          s.lastAccessPages) ∧
    (∀ now maxAge s,
        (disposeStep now maxAge s).1.lastAccessPages = s.lastAccessPages) ∧
    (∀ now parsed s out s2, handleMessage now parsed s = (out, s2) →
        out ≠ MsgOutcome.updated → s2.lastAccessPages = s.lastAccessPages) ∧
    (∀ (s : SysState) (p : String) (e : Entry),
        s.lastAccessPages = [""] → List.lookup p s.entries = some e →
        p ≠ "" → s.lastAccessPages.head? ≠ some p) := by
  refine ⟨rfl, rfl, ?_, fun s => rfl, fun now stats s => rfl, ?_, fun now maxAge s => rfl,
    ?_, ?_⟩
  · intro now parsed s h
    cases parsed with
    | none => exact h
    | some rawPage =>
      rcases hl : List.lookup (normalizePage rawPage) s.entries with _ | entryInfo
      · simp only [handleMessage, hl]
        exact h
      · simp only [handleMessage, hl]
        by_cases hb : entryInfo.status ≠ BUILT
        · rw [if_pos hb]
          exact h
        · rw [if_neg hb]
          simp [List.length_dropLast, h]
  · intro dir res cbId s rawPage
    cases res with
    | error err => rfl
    | ok pathname =>
      rcases hl : List.lookup (normalizePage rawPage) s.entries with _ | entryInfo
      · simp [ensurePage, hl]
      · by_cases hb : entryInfo.status = BUILT
        · simp [ensurePage, hl, hb]
        · by_cases hbd : entryInfo.status = BUILDING
          · simp [ensurePage, hl, hb, hbd]
          · simp [ensurePage, hl, hb, hbd]
  · intro now parsed s out s2 heq hout
    cases parsed with
    | none =>
      obtain ⟨-, rfl⟩ := Prod.mk.injEq .. ▸ heq
      rfl
    | some rawPage =>
      rcases hl : List.lookup (normalizePage rawPage) s.entries with _ | entryInfo <;>
        simp only [handleMessage, hl] at heq
      · obtain ⟨-, rfl⟩ := Prod.mk.injEq .. ▸ heq
        rfl
      · by_cases hb : entryInfo.status ≠ BUILT
        · rw [if_pos hb] at heq
          obtain ⟨-, rfl⟩ := Prod.mk.injEq .. ▸ heq
          rfl
        · rw [if_neg hb] at heq
          obtain ⟨rfl, -⟩ := Prod.mk.injEq .. ▸ heq
          exact absurd rfl hout
  · intro s p e hw hl hp
    rw [hw]
    simp only [List.head?_cons, ne_eq, Option.some.injEq]
    exact fun hc => hp hc.symm

/-- Witness for C9 at `sampleState` (ping accepted for `/a`; unknown-page
ping leaves the window alone) and `emptyWindowState` (window still `[""]`,
`/a` unprotected). -/
theorem recency_window_single_slot_witness :
    sampleState.lastAccessPages.length = 1 ∧
    (handleMessage 55 (some "/a") sampleState).2.lastAccessPages.length = 1 ∧
    (handleMessage 55 (some "/zzz") sampleState).2.lastAccessPages =
      sampleState.lastAccessPages ∧
    emptyWindowState.lastAccessPages.head? ≠ some "/a" :=
  ⟨by decide,
   recency_window_single_slot.2.2.1 55 (some "/a") sampleState (by decide),
   recency_window_single_slot.2.2.2.2.2.2.2.1 55 (some "/zzz") sampleState
     MsgOutcome.invalidSent (handleMessage 55 (some "/zzz") sampleState).2
     (by decide) (by decide),
   recency_window_single_slot.2.2.2.2.2.2.2.2 emptyWindowState "/a" sampleBuiltEntry
     (by decide) (by decide) (by decide)⟩

end OnDemand
